import Mathlib

/-!
Verification development for the recipe-extractor service (src/app.py).

The Python source is shallowly embedded: strings are modelled as `List Char`
(Python `len` counts code points, as does `List.length`), machine-external
library calls (`json.loads`, the HTML parser) are modelled by taking their
already-decoded results as input, and every function of the service that the
claims touch is translated directly from the source.  Character classes of
the regular expressions are modelled over their ASCII range (the inputs of
interest are ASCII); this is noted at each definition.
-/

namespace RecipeApp

/-! ## Basic Python string helpers -/

/-- Python whitespace for `str.strip()` and the regex class `\s`
(ASCII range: space, tab, newline, carriage return, vertical tab, form feed). -/
def isPySpace (c : Char) : Bool :=
  c == ' ' || c == '\t' || c == '\n' || c == '\r' || c == '\x0b' || c == '\x0c'

/-- The regex class `\d` (ASCII range). -/
def isDigitCh (c : Char) : Bool :=
  48 ≤ c.toNat && c.toNat ≤ 57

/-- The regex class `[A-Za-z]`. -/
def isAlphaCh (c : Char) : Bool :=
  (65 ≤ c.toNat && c.toNat ≤ 90) || (97 ≤ c.toNat && c.toNat ≤ 122)

/-- Python `str.strip()`: drop leading and trailing whitespace. -/
def pstrip (l : List Char) : List Char :=
  ((l.dropWhile isPySpace).reverse.dropWhile isPySpace).reverse

/-- Python `str.lower()` (ASCII range). -/
def lowerL (l : List Char) : List Char :=
  l.map Char.toLower

/-- Whether `needle` occurs as a contiguous sublist of `hay` (regex substring search
for a literal pattern). -/
def containsSub (needle hay : List Char) : Bool :=
  match hay with
  | [] => needle.isEmpty
  | _ :: t => needle.isPrefixOf hay || containsSub needle t

/-- Word character for the regex class `\w` (ASCII range). -/
def isWordChar (c : Char) : Bool :=
  isAlphaCh c || isDigitCh c || c == '_'

/-- Search for literal `needle` followed by a word boundary (regex
`needle\b` where `needle` ends in a word character): an occurrence that is
followed by a non-word character or the end of the string. -/
def containsSubWB (needle hay : List Char) : Bool :=
  match hay with
  | [] => false
  | _ :: t =>
    (needle.isPrefixOf hay &&
      (match hay.drop needle.length with
       | [] => true
       | c :: _ => !isWordChar c)) || containsSubWB needle t

/-! ## Text cleaning helpers (src/app.py lines 95-119)

`WS = re.compile(r"\s+")`; `WS.sub(" ", s)` replaces every maximal
whitespace run by a single space. -/

/-- Prepend one blank unless the list already starts with one (used to merge
a whitespace run into the single blank the run is replaced by). -/
def consSpace (r : List Char) : List Char :=
  match r with
  | ' ' :: _ => r
  | _ => ' ' :: r

/-- Models `WS.sub(" ", s)`: collapse every maximal whitespace run to one `' '`. -/
def collapseWS : List Char → List Char
  | [] => []
  | c :: cs =>
    if isPySpace c then consSpace (collapseWS cs) else c :: collapseWS cs

/-- Models `WS.sub(" ", s).strip()` as used by `clean_text` and `final_trim`. -/
def collapseStrip (l : List Char) : List Char :=
  pstrip (collapseWS l)

/-- Models `LEADING_BULLET = re.compile(r"^[\-••·\*●]\s*")`:
the character class is dash, bullet (U+2022, listed twice in the source),
middle dot (U+00B7), asterisk, black circle (U+25CF). -/
def isBulletChar (c : Char) : Bool :=
  c == '-' || c == '•' || c == '·' || c == '*' || c == '●'

/-- Models `LEADING_BULLET.sub("", s)`: the pattern is anchored at the start, so at
most one leading bullet character (with the whitespace following it) is
removed. -/
def stripBullet : List Char → List Char
  | [] => []
  | c :: cs => if isBulletChar c then cs.dropWhile isPySpace else c :: cs

/-- Left-hand character class of `GLUED_NUM = re.compile(r"([A-Za-z\)])(\d)")`. -/
def isGlueLeft (c : Char) : Bool :=
  isAlphaCh c || c == ')'

/-- Models `GLUED_NUM.sub(r"\1 \2", s)`: `re.sub` scans left to right, replaces each
non-overlapping two-character match `letter-or-paren digit` by the same pair
separated by one space, and resumes scanning after the match. -/
def gluedSub : List Char → List Char
  | [] => []
  | [c] => [c]
  | c1 :: c2 :: rest =>
    if isGlueLeft c1 && isDigitCh c2 then c1 :: ' ' :: c2 :: gluedSub rest
    else c1 :: gluedSub (c2 :: rest)

/-- Models `clean_text` (src/app.py lines 99-104).  The Python parameter is declared
`str`; the defensive `s = s or ""` only handles a `None` argument, which the
`String` argument type already excludes. -/
def clean_text_l (l : List Char) : List Char :=
  gluedSub (stripBullet (collapseStrip l))

/-- Models `clean_text` on Lean strings. -/
def clean_text (s : String) : String :=
  ⟨clean_text_l s.data⟩

/-- One adjacency constraint of the whitespace normal form: a whitespace
character must be the single blank and must not be followed by further
whitespace. -/
def pairOK (c : Char) (l : List Char) : Bool :=
  !isPySpace c ||
    (c == ' ' && (match l with | [] => true | d :: _ => !isPySpace d))

/-- Whitespace inside the list consists of isolated single blanks. -/
def innerWS : List Char → Bool
  | [] => true
  | c :: rest => pairOK c rest && innerWS rest

/-- The first character, if any, is not whitespace. -/
def headNoWS : List Char → Bool
  | [] => true
  | c :: _ => !isPySpace c

/-- The last character, if any, is not whitespace. -/
def lastNoWS (l : List Char) : Bool :=
  match l.getLast? with
  | some c => !isPySpace c
  | none => true

/-- Whitespace normal form: what `WS.sub(" ", s).strip()` guarantees. -/
def wsNormal (l : List Char) : Bool :=
  headNoWS l && lastNoWS l && innerWS l

/-- No letter-or-paren character is immediately followed by a digit
(no remaining match of `GLUED_NUM`). -/
def noGluedPair : List Char → Bool
  | [] => true
  | c :: rest =>
    (match rest with
     | [] => true
     | d :: _ => !(isGlueLeft c && isDigitCh d)) && noGluedPair rest

/-- The cleaned string does not begin with a bullet character (the exact
condition under which a second `clean_text` pass is the identity). -/
def noLeadingBullet (s : String) : Bool :=
  match s.data with
  | [] => true
  | c :: _ => !isBulletChar c

/-- Trailing divider glyph class of `re.sub(r"\s*([•·/|])\s*$", "", s)`. -/
def isDivGlyph (c : Char) : Bool :=
  c == '•' || c == '·' || c == '/' || c == '|'

/-- Models `final_trim` (src/app.py lines 106-109): collapse whitespace, strip, then
remove one trailing divider glyph together with the whitespace around it
(the `$`-anchored pattern can match at most once). -/
def final_trim_l (l : List Char) : List Char :=
  let t := collapseStrip l
  match t.reverse with
  | c :: rest => if isDivGlyph c then (rest.dropWhile isPySpace).reverse else t
  | [] => t

/-- Models `final_trim` on Lean strings. -/
def final_trim (s : String) : String :=
  ⟨final_trim_l s.data⟩

/-- Models `dedupe_keep_order` (src/app.py lines 111-119): keep the first occurrence
of each non-empty lower-cased key.  The Python `set` is modelled as the list
of keys seen so far. -/
def dedupe_keep_order_aux (seen : List (List Char)) : List String → List String
  | [] => []
  | it :: rest =>
    let key := lowerL it.data
    if !key.isEmpty && !seen.contains key then
      it :: dedupe_keep_order_aux (key :: seen) rest
    else
      dedupe_keep_order_aux seen rest

/-- Models `dedupe_keep_order` entry point. -/
def dedupe_keep_order (items : List String) : List String :=
  dedupe_keep_order_aux [] items

/-! ## ISO-8601 duration parsing (src/app.py lines 58-89)

`ISO_DUR = re.compile(r"^P(?:(?P<days>\d+)D)?(?:T(?:(?P<hours>\d+)H)?`
`(?:(?P<minutes>\d+)M)?(?:(?P<seconds>\d+)S)?)?$", re.I)`.
The regex is anchored on both sides and each optional group is a digit run
followed by a fixed letter, so matching is deterministic: at each group, if a
digit run followed by the group letter is present it is consumed, otherwise
the position is left unchanged; the match succeeds iff the end of the string
is reached. -/

/-- Consume a maximal digit run, accumulating its decimal value. -/
def digitsAux : List Char → Nat → Nat × List Char
  | [], acc => (acc, [])
  | c :: rest, acc =>
    if isDigitCh c then digitsAux rest (acc * 10 + (c.toNat - 48)) else (acc, c :: rest)

/-- Leading digit run of `l`, if any (`\d+`, ASCII digits). -/
def takeDigits (l : List Char) : Option (Nat × List Char) :=
  match l with
  | c :: _ => if isDigitCh c then some (digitsAux l 0) else none
  | [] => none

/-- One optional group `(?:(\d+)U)?` with unit letter `u` (lower case;
matching is case-insensitive via `re.I`). -/
def tryUnit (u : Char) (l : List Char) : Option Nat × List Char :=
  match takeDigits l with
  | some (n, c :: rest) => if c.toLower == u then (some n, rest) else (none, l)
  | _ => (none, l)

/-- The optional `T` part `(?:T(?:(\d+)H)?(?:(\d+)M)?(?:(\d+)S)?)?`. -/
def isoTPart (l : List Char) : Option Nat × Option Nat × Option Nat × List Char :=
  match l with
  | c :: rest =>
    if c.toLower == 't' then
      let (h, r1) := tryUnit 'h' rest
      let (mi, r2) := tryUnit 'm' r1
      let (s, r3) := tryUnit 's' r2
      (h, mi, s, r3)
    else (none, none, none, c :: rest)
  | [] => (none, none, none, [])

/-- Models `ISO_DUR.match`: returns the four captured groups (`days`, `hours`,
`minutes`, `seconds`), each defaulted to 0 as by `int(m.group(..) or 0)`,
or `none` when the string does not match. -/
def isoMatch (l : List Char) : Option (Nat × Nat × Nat × Nat) :=
  match l with
  | c :: rest =>
    if c.toLower == 'p' then
      let (d, r1) := tryUnit 'd' rest
      let (h, mi, s, r2) := isoTPart r1
      if r2.isEmpty then some (d.getD 0, h.getD 0, mi.getD 0, s.getD 0) else none
    else none
  | [] => none

/-- Models `parse_iso8601_minutes` (src/app.py lines 63-76): `None` and the empty
string are rejected by `if not iso`; otherwise the stripped string is matched
against `ISO_DUR`; a zero total with a non-zero seconds group is promoted to
one minute; `return total_minutes or None` maps a zero total to `None`. -/
def parse_iso8601_minutes (iso : Option String) : Option Nat :=
  match iso with
  | none => none
  | some s =>
    if s.data.isEmpty then none
    else
      match isoMatch (pstrip s.data) with
      | none => none
      | some (d, h, mi, sec) =>
        let total := d * 24 * 60 + h * 60 + mi
        let total2 := if total == 0 && sec != 0 then 1 else total
        if total2 == 0 then none else some total2

/-- Join a list of strings with a separator (Python `sep.join(parts)`). -/
def joinWith (sep : String) : List String → String
  | [] => ""
  | [s] => s
  | s :: rest => s ++ sep ++ joinWith sep rest

/-- Models `humanize_minutes` (src/app.py lines 78-89). -/
def humanize_minutes : Option Nat → Option String
  | none => none
  | some total =>
    let h := total / 60
    let m := total % 60
    let parts : List String :=
      (if h != 0 then [Nat.repr h ++ " hr" ++ (if h == 1 then "" else "s")] else []) ++
      (if m != 0 then [Nat.repr m ++ " min" ++ (if m == 1 then "" else "s")] else [])
    some (match parts with
          | [] => "0 mins"
          | ps => joinWith " " ps)

/-! ## JSON values

Result type of the external `json.loads`.  JSON numbers are modelled as
integers (the recipe fields the claims exercise carry strings and
containers; float payloads are out of scope).  Objects are association
lists; `json.loads` keeps the last duplicate key, so objects are assumed
key-unique and `jget` returns the first binding. -/

inductive Json where
  | null
  | bool (b : Bool)
  | num (n : Int)
  | str (s : String)
  | arr (xs : List Json)
  | obj (kvs : List (String × Json))

/-- Python `dict.get(key)`. -/
def jget : List (String × Json) → String → Option Json
  | [], _ => none
  | (k, v) :: rest, key => if k == key then some v else jget rest key

/-- Python truthiness of a JSON-decoded value. -/
def jTruthy : Json → Bool
  | .null => false
  | .bool b => b
  | .num n => n != 0
  | .str s => !s.data.isEmpty
  | .arr xs => !xs.isEmpty
  | .obj kvs => !kvs.isEmpty

/-- Python truthiness with `dict.get`-style absence (`None` is falsy). -/
def optTruthy : Option Json → Bool
  | none => false
  | some j => jTruthy j

/-- Python `x or y` on possibly-absent JSON values. -/
def pyOrO (a b : Option Json) : Option Json :=
  if optTruthy a then a else b

/-- Integer decimal rendering, as Python `str(int)`. -/
def intRepr : Int → String
  | .ofNat m => Nat.repr m
  | .negSucc m => "-" ++ Nat.repr (m + 1)

mutual
/-- Python `repr` of a decoded JSON value (used by `str` on containers).
Approximation: nested strings are rendered unquoted; no claim depends on
the `str()` of a container. -/
def pyRepr : Json → String
  | .null => "None"
  | .bool true => "True"
  | .bool false => "False"
  | .num n => intRepr n
  | .str s => s
  | .arr xs => "[" ++ joinWith ", " (pyReprL xs) ++ "]"
  | .obj kvs => "dict(" ++ joinWith ", " (pyReprKV kvs) ++ ")"
def pyReprL : List Json → List String
  | [] => []
  | x :: rest => pyRepr x :: pyReprL rest
def pyReprKV : List (String × Json) → List String
  | [] => []
  | (k, v) :: rest => (k ++ ": " ++ pyRepr v) :: pyReprKV rest
end

/-- Python `str()` of a decoded JSON value. -/
def pyStr : Json → String
  | .str s => s
  | j => pyRepr j

/-! ## DOM model

The parsed document (`BeautifulSoup(html, "lxml")`).  `elem` is an HTML tag
with its attributes (the `class` attribute kept as its raw string);
`textNode` is a navigable string; `ldscript` models a
`<script type="application/ld+json">` element carrying the result of the
external `json.loads` on its text (`none` = the block fails to decode and
is skipped).  Scripts with other types play no role in any extractor and
are represented as plain `elem` nodes. -/

inductive Node where
  | elem (tag : String) (attrs : List (String × String)) (children : List Node)
  | textNode (s : String)
  | ldscript (data : Option Json)

/-- Attribute lookup (`tag.get(name)`). -/
def attrGet : List (String × String) → String → Option String
  | [], _ => none
  | (k, v) :: rest, key => if k == key then some v else attrGet rest key

mutual
/-- Models `soup.find_all("script", type="application/ld+json")` in document
(pre-)order, each block carried as its JSON-decode result. -/
def ldjsonScripts : Node → List (Option Json)
  | .elem _ _ ch => ldjsonScriptsL ch
  | .textNode _ => []
  | .ldscript d => [d]
def ldjsonScriptsL : List Node → List (Option Json)
  | [] => []
  | n :: rest => ldjsonScripts n ++ ldjsonScriptsL rest
end

mutual
/-- Stripped non-empty text fragments of a subtree in document order, as
collected by `get_text(sep, strip=True)`. -/
def textFrags : Node → List (List Char)
  | .textNode s => let t := pstrip s.data; if t.isEmpty then [] else [t]
  | .ldscript _ => []
  | .elem _ _ ch => textFragsL ch
def textFragsL : List Node → List (List Char)
  | [] => []
  | n :: rest => textFrags n ++ textFragsL rest
end

/-- Join char-list fragments with a separator. -/
def joinFrags (sep : List Char) : List (List Char) → List Char
  | [] => []
  | [x] => x
  | x :: rest => x ++ sep ++ joinFrags sep rest

/-- Models `node.get_text(" ", strip=True)`. -/
def getTextSp (n : Node) : List Char :=
  joinFrags [' '] (textFrags n)

/-- Models `node.get_text("", strip=True)`. -/
def getTextNil (n : Node) : List Char :=
  joinFrags [] (textFrags n)

/-- Tag name of an element node (`.name`). -/
def nodeTag : Node → String
  | .elem t _ _ => t
  | .ldscript _ => "script"
  | .textNode _ => ""

/-- Attributes of an element node. -/
def nodeAttrs : Node → List (String × String)
  | .elem _ a _ => a
  | .ldscript _ => [("type", "application/ld+json")]
  | .textNode _ => []

/-- Children of an element node. -/
def nodeChildren : Node → List Node
  | .elem _ _ ch => ch
  | _ => []

mutual
/-- All proper descendant element nodes, in document (pre-)order — the
search space of `tag.find_all(...)` / `tag.find(...)`. -/
def descElems : Node → List Node
  | .elem _ _ ch => descElemsL ch
  | _ => []
def descElemsL : List Node → List Node
  | [] => []
  | n :: rest =>
    (match n with
     | .elem t a ch => Node.elem t a ch :: descElems (Node.elem t a ch)
     | .ldscript d => [Node.ldscript d]
     | .textNode _ => []) ++ descElemsL rest
end

/-- Summary of one element for ancestor-sensitive matching. -/
structure EInfo where
  tag : String
  attrs : List (String × String)

/-- An element in context: its proper ancestors (nearest first), its path of
child indices from the root (serving as node identity), and its subtree. -/
structure Loc where
  revAnc : List EInfo
  path : List Nat
  node : Node

/-- Element summary of a located node. -/
def einfoOf (l : Loc) : EInfo :=
  ⟨nodeTag l.node, nodeAttrs l.node⟩

mutual
/-- Every element of the document in document (pre-)order, with ancestors
and path.  Text nodes are not elements; `ldscript` nodes are `<script>`
tags and do appear. -/
def locsOf : Node → List EInfo → List Nat → List Loc
  | .elem t a ch, anc, path =>
    ⟨anc, path, .elem t a ch⟩ :: locsOfL ch (⟨t, a⟩ :: anc) path 0
  | .textNode _, _, _ => []
  | .ldscript d, anc, path => [⟨anc, path, .ldscript d⟩]
def locsOfL : List Node → List EInfo → List Nat → Nat → List Loc
  | [], _, _, _ => []
  | n :: rest, anc, path, i =>
    locsOf n anc (path ++ [i]) ++ locsOfL rest anc path (i + 1)
end

/-- All elements of the document in document order. -/
def docLocs (root : Node) : List Loc :=
  locsOf root [] []

/-! ## CSS selector matching

Only the selector features the source uses are needed: type selectors,
class selectors, exact-value attribute selectors, the descendant
combinator, and selector grouping (commas).  `soup.select` tests every
element of the document in document order against the selector group. -/

/-- Split a raw attribute value on whitespace — how the HTML parser derives
the multi-valued `class` list that bs4 exposes. -/
def splitWSAux : List Char → List Char → List (List Char)
  | [], acc => if acc.isEmpty then [] else [acc.reverse]
  | c :: rest, acc =>
    if isPySpace c then
      if acc.isEmpty then splitWSAux rest [] else acc.reverse :: splitWSAux rest []
    else splitWSAux rest (c :: acc)

/-- Class list of an element (`tag.get("class", [])`). -/
def classListOf (attrs : List (String × String)) : List String :=
  (splitWSAux ((attrGet attrs "class").getD "").data []).map (fun l => (⟨l⟩ : String))

/-- One simple selector: optional type, required classes, required
exact-value attributes. -/
structure Simple where
  tagName : Option String
  classes : List String
  attrsEq : List (String × String)

/-- A compound selector `s₁ s₂ … sₙ` with descendant combinators, split as
the ancestor part (outermost first) and the subject. -/
structure Chain where
  anc : List Simple
  target : Simple

/-- Does one element summary match a simple selector? -/
def simpleMatch (s : Simple) (e : EInfo) : Bool :=
  (match s.tagName with | some t => e.tag == t | none => true) &&
  s.classes.all (fun c => (classListOf e.attrs).contains c) &&
  s.attrsEq.all (fun kv => attrGet e.attrs kv.1 == some kv.2)

/-- The ancestor selectors (outermost first) embed, in order, into the
ancestor list (outermost first) — the descendant combinator. -/
def ancChainMatch : List Simple → List EInfo → Bool
  | [], _ => true
  | _ :: _, [] => false
  | s :: ss, e :: es =>
    (simpleMatch s e && ancChainMatch ss es) || ancChainMatch (s :: ss) es

/-- Does a located element match a compound selector? -/
def chainMatch (c : Chain) (l : Loc) : Bool :=
  simpleMatch c.target (einfoOf l) && ancChainMatch c.anc l.revAnc.reverse

/-- Does a located element match a selector group (comma list)? -/
def groupMatch (g : List Chain) (l : Loc) : Bool :=
  g.any (fun c => chainMatch c l)

/-- Models `soup.select(group)`: matching elements in document order. -/
def selectGroup (root : Node) (g : List Chain) : List Loc :=
  (docLocs root).filter (groupMatch g)

/-- Shorthand for a type-only simple selector. -/
def selT (t : String) : Simple := ⟨some t, [], []⟩

/-- Shorthand for a type-plus-class simple selector. -/
def selTC (t c : String) : Simple := ⟨some t, [c], []⟩

/-- Shorthand for a class-only simple selector. -/
def selC (c : String) : Simple := ⟨none, [c], []⟩

/-- Shorthand for an attribute-equality simple selector. -/
def selA (k v : String) : Simple := ⟨none, [], [(k, v)]⟩

/-! ## Junk filters (src/app.py lines 125-143) -/

/-- An occurrence of `needle` immediately followed by a word character
(for `mntl-sc-block-inline-\w+`). -/
def containsSubW (needle hay : List Char) : Bool :=
  match hay with
  | [] => false
  | _ :: t =>
    (needle.isPrefixOf hay &&
      (match hay.drop needle.length with
       | c :: _ => isWordChar c
       | [] => false)) || containsSubW needle t

/-- Models `_JUNK_CLASS_PATTERNS.search` on a raw class string: case-insensitive
substring search for the alternation
`related|promo|newsletter|ads?|subscribe|share|social|breadcrumb|outbrain|`
`taboola|sponsored|read-?more|recommended|mntl-sc-block-callout|`
`mntl-sc-block-inline-\w+`.  As a search, `ads?` is an occurrence of `ad`,
`read-?more` is `readmore` or `read-more`, and the last alternative is the
literal prefix followed by at least one word character. -/
def junkClass (s : String) : Bool :=
  let h := lowerL s.data
  containsSub "related".data h || containsSub "promo".data h ||
  containsSub "newsletter".data h || containsSub "ad".data h ||
  containsSub "subscribe".data h || containsSub "share".data h ||
  containsSub "social".data h || containsSub "breadcrumb".data h ||
  containsSub "outbrain".data h || containsSub "taboola".data h ||
  containsSub "sponsored".data h || containsSub "read-more".data h ||
  containsSub "readmore".data h || containsSub "recommended".data h ||
  containsSub "mntl-sc-block-callout".data h ||
  containsSubW "mntl-sc-block-inline-".data h

/-- Models `_JUNK_TEXT_PATTERNS.search` on an element text: case-insensitive
search for `read more|watch|sponsored|shop now|subscribe|sign up|`
`privacy policy|cookie|terms\b`. -/
def junkText (l : List Char) : Bool :=
  let h := lowerL l
  containsSub "read more".data h || containsSub "watch".data h ||
  containsSub "sponsored".data h || containsSub "shop now".data h ||
  containsSub "subscribe".data h || containsSub "sign up".data h ||
  containsSub "privacy policy".data h || containsSub "cookie".data h ||
  containsSubWB "terms".data h

/-- Models `_is_junk_container` (src/app.py lines 136-143): the element or any of
its ancestors has a class string matching the junk class patterns (bs4
joins the class list with spaces; no junk pattern spans whitespace, so
searching the raw class string is equivalent). -/
def isJunkContainer (l : Loc) : Bool :=
  (einfoOf l :: l.revAnc).any
    (fun e => junkClass ((attrGet e.attrs "class").getD ""))

/-! ## Article extraction (src/app.py lines 145-262) -/

/-- Models `PARA_SELECTORS` (src/app.py lines 145-154), each compiled to one
compound selector. -/
def paraSelectors : List Chain :=
  [ ⟨[], selTC "p" "mntl-sc-block-html"⟩,
    ⟨[selT "article", selA "itemprop" "articleBody"], selT "p"⟩,
    ⟨[selT "article", selC "article-body"], selT "p"⟩,
    ⟨[selT "main", selC "article-body"], selT "p"⟩,
    ⟨[selT "article", selC "entry-content"], selT "p"⟩,
    ⟨[selT "main", selC "entry-content"], selT "p"⟩,
    ⟨[selT "article"], selT "p"⟩,
    ⟨[selT "main"], selT "p"⟩ ]

/-- The per-paragraph filters of `_paragraph_candidates` applied after the
`seen` dedup: junk container, empty or junk text, link-dominated blocks,
tiny fragments.  The float comparison `len(link_text) > len(text) * 0.7`
is exact in integers as `10 * link ≥ 7 * text`: the IEEE double `0.7` lies
strictly below 7/10, so for text lengths below 2^50 the product is strictly
between the next lower representable and `0.7 * len(text)`. -/
def keepPara (p : Loc) : Bool :=
  if isJunkContainer p then false
  else
    let text := getTextSp p.node
    if text.isEmpty || junkText text then false
    else
      let anchors := (descElems p.node).filter (fun n => nodeTag n == "a")
      let linkLen := (anchors.map (fun a => (getTextNil a).length)).sum
      if !anchors.isEmpty && 10 * linkLen ≥ 7 * text.length then false
      else if text.length < 25 && !(text.getLast? == some '.') then false
      else true

/-- Inner loop of `_paragraph_candidates`: fold the matches of one selector
into the accumulated output, skipping elements already `seen` (bs4 tags
hash by identity; the path is the identity).  An element is marked seen
before the junk filters run, exactly as in the source. -/
def paraCandStep : List Loc → List Loc × List (List Nat) → List Loc × List (List Nat)
  | [], acc => acc
  | p :: rest, (out, seen) =>
    if !(nodeTag p.node == "p") then paraCandStep rest (out, seen)
    else if seen.contains p.path then paraCandStep rest (out, seen)
    else if keepPara p then paraCandStep rest (out ++ [p], p.path :: seen)
    else paraCandStep rest (out, p.path :: seen)

/-- Models `_paragraph_candidates` (src/app.py lines 156-188): iterate the
selectors in priority order, collecting fresh matching paragraphs that
survive the filters. -/
def paragraphCandidates (root : Node) : List Loc :=
  let ls := docLocs root
  (paraSelectors.foldl
    (fun acc sel => paraCandStep (ls.filter (chainMatch sel)) acc)
    ([], [])).1

/-- Paragraph preference score of `extract_article_paragraphs`:
sentence-terminal punctuation is worth 2, length at least 60 is worth 1. -/
def paraScore (t : List Char) : Nat :=
  (if t.getLast? == some '.' || t.getLast? == some '!' || t.getLast? == some '?'
   then 2 else 0) +
  (if t.length ≥ 60 then 1 else 0)

/-- The dedup pass of `extract_article_paragraphs`: `final_trim` each
candidate, drop empties, drop case-insensitive exact duplicates keeping the
first occurrence. -/
def articleParasAux (seen : List (List Char)) : List Loc → List (List Char)
  | [] => []
  | p :: rest =>
    let cleaned := final_trim_l (getTextSp p.node)
    if cleaned.isEmpty then articleParasAux seen rest
    else
      let key := lowerL cleaned
      if seen.contains key then articleParasAux seen rest
      else cleaned :: articleParasAux (key :: seen) rest

/-- Models `extract_article_paragraphs` (src/app.py lines 190-214).
`paras.sort(key=score, reverse=True)` is a stable descending sort on a key
ranging over 0..3, which is exactly the concatenation of the score buckets
3, 2, 1, 0, each in original order.  The result is truncated to 200. -/
def extract_article_paragraphs (root : Node) : List String :=
  let paras := articleParasAux [] (paragraphCandidates root)
  let sorted :=
    paras.filter (fun t => paraScore t == 3) ++
    paras.filter (fun t => paraScore t == 2) ++
    paras.filter (fun t => paraScore t == 1) ++
    paras.filter (fun t => paraScore t == 0)
  (sorted.take 200).map (fun l => (⟨l⟩ : String))

/-- Node at a child-index path. -/
def nodeAt : Node → List Nat → Option Node
  | n, [] => some n
  | n, i :: rest =>
    match (nodeChildren n).get? i with
    | some c => nodeAt c rest
    | none => none

/-- The parent-climbing fallback of `_closest_heading_for` (src/app.py
lines 226-246), driven by the reversed path of the current node `cur`
(initially the paragraph's parent).  At each level the previous siblings
are walked backwards; the first sibling tag that is an `h2`/`h3` or
contains one (`sib.find(["h2", "h3"])`, first in pre-order) stops the
sibling walk; its text is returned when non-empty and non-junk, otherwise
the climb moves to the parent. -/
def climbHeading (root : Node) : List Nat → Option (List Char)
  | [] => none
  | i :: rq =>
    let found : Option Node :=
      match nodeAt root rq.reverse with
      | some par =>
        (((nodeChildren par).take i).reverse).findSome? (fun sib =>
          match sib with
          | .elem t a ch =>
            if t == "h2" || t == "h3" then some (Node.elem t a ch)
            else (descElems (Node.elem t a ch)).find?
                   (fun d => nodeTag d == "h2" || nodeTag d == "h3")
          | _ => none)
      | none => none
    match found with
    | some h =>
      let txt := final_trim_l (getTextSp h)
      if !txt.isEmpty && !junkText txt then some txt else climbHeading root rq
    | none => climbHeading root rq

/-- Models `_closest_heading_for` (src/app.py lines 216-248).  Fast path:
`p.find_previous(["h2", "h3"])` is the last `h2`/`h3` element strictly
before `p` in document order; its trimmed text is returned when non-empty
and non-junk.  Otherwise the parent-climbing fallback runs. -/
def closestHeadingFor (root : Node) (p : Loc) : Option (List Char) :=
  let ls := docLocs root
  let idx := (ls.findIdx? (fun l => l.path == p.path)).getD 0
  let fast :=
    match ((ls.take idx).reverse).find?
            (fun l => nodeTag l.node == "h2" || nodeTag l.node == "h3") with
    | some h =>
      let txt := final_trim_l (getTextSp h.node)
      if !txt.isEmpty && !junkText txt then some txt else none
    | none => none
  match fast with
  | some t => some t
  | none => climbHeading root p.path.reverse.tail

/-- Models `extract_article_sections` (src/app.py lines 250-262): one
`(heading, paragraph)` output entry per kept candidate paragraph with
non-empty trimmed text; `_closest_heading_for(p) or ""`.  Truncated to
200 entries. -/
def extract_article_sections (root : Node) : List (String × String) :=
  ((paragraphCandidates root).filterMap (fun p =>
    let t := final_trim_l (getTextSp p.node)
    if t.isEmpty then none
    else some (((⟨(closestHeadingFor root p).getD []⟩ : String)),
               ((⟨t⟩ : String))))).take 200

/-! ## JSON-LD recipe extraction (src/app.py lines 268-354) -/

/-- The normalized recipe dictionary built for the first Recipe-typed
JSON-LD node (the keys `extract_jsonld_recipe` assigns). -/
structure RecipeDict where
  name : Option Json
  description : Option Json
  author : Option Json
  ingredients : List String
  instructions : List String
  prepTime : Option Json
  cookTime : Option Json
  totalTime : Option Json
  tags : List String
  nutrition : List (String × Json)

/-- Is the decoded value a JSON object (`isinstance(item, dict)`)? -/
def isObjJ : Json → Bool
  | .obj _ => true
  | _ => false

/-- Candidate nodes of one decoded block: the dict items of a top list,
the dict items of a list under `@graph`, or the dict itself. -/
def candidatesOf : Json → List Json
  | .arr items => items.filter isObjJ
  | .obj kvs =>
    match jget kvs "@graph" with
    | some (.arr items) => items.filter isObjJ
    | _ => [.obj kvs]
  | _ => []

/-- The `@type` test: the type value (or, for a list, any of its items)
stringifies case-insensitively to `recipe`.  A missing `@type` gives
`str(None).lower() == "none"`, never `recipe`. -/
def typeIsRecipe : Option Json → Bool
  | some (.arr ts) => ts.any (fun t => lowerL (pyStr t).data == "recipe".data)
  | some j => lowerL (pyStr j).data == "recipe".data
  | none => false

/-- Python `str.splitlines()` (ASCII line breaks: `\n`, `\r\n`, `\r`,
vertical tab, form feed; no trailing empty line). -/
def splitlinesAux : List Char → List Char → List (List Char)
  | [], acc => if acc.isEmpty then [] else [acc.reverse]
  | '\r' :: '\n' :: rest, acc => acc.reverse :: splitlinesAux rest []
  | c :: rest, acc =>
    if c == '\n' || c == '\r' || c == '\x0b' || c == '\x0c' then
      acc.reverse :: splitlinesAux rest []
    else splitlinesAux rest (c :: acc)

/-- Python `str.split(",")` (keeps empty fields). -/
def splitCommaAux : List Char → List Char → List (List Char)
  | [], acc => [acc.reverse]
  | ',' :: rest, acc => acc.reverse :: splitCommaAux rest []
  | c :: rest, acc => splitCommaAux rest (c :: acc)

/-- Text of one instruction entry: a dict contributes `st.get("text") or ""`
(a falsy or missing `text` gives the empty string; a truthy non-string
`text` would raise inside `clean_text` in Python and is modelled by its
`str()`); any other entry contributes `str(st)`. -/
def stepTextOf : Json → String
  | .obj skvs =>
    match jget skvs "text" with
    | some t => if jTruthy t then pyStr t else ""
    | none => ""
  | j => pyStr j

/-- The `recipeInstructions` normalization: a list keeps the cleaned
non-empty entry texts in order; a string is split into cleaned non-empty
lines; anything else gives no steps. -/
def instructionsOf : Option Json → List String
  | some (.arr sts) =>
    (sts.map (fun st => clean_text (stepTextOf st))).filter
      (fun t => !t.data.isEmpty)
  | some (.str s) =>
    ((splitlinesAux s.data []).map (fun l => clean_text_l l)).filter
      (fun t => !t.isEmpty) |>.map (fun l => (⟨l⟩ : String))
  | _ => []

/-- The `keywords` normalization: a string is comma-split and stripped; a
list is cleaned element-wise; empties are dropped; anything else gives no
tags.  No de-duplication is applied. -/
def tagsOf : Option Json → List String
  | some (.str s) =>
    ((splitCommaAux s.data []).map pstrip).filter (fun t => !t.isEmpty)
      |>.map (fun l => (⟨l⟩ : String))
  | some (.arr ts) =>
    (ts.map (fun t => clean_text (pyStr t))).filter (fun t => !t.data.isEmpty)
  | _ => []

/-- Field normalization of one Recipe-typed JSON-LD node (the body of the
`for item in candidates` loop, src/app.py lines 302-353). -/
def buildRecipe (kvs : List (String × Json)) : RecipeDict :=
  { name := jget kvs "name"
    description := jget kvs "description"
    author :=
      let a0 := jget kvs "author"
      let a1 := match a0 with
        | some (.arr (x :: _)) => some x
        | _ => a0
      match a1 with
      | some (.obj akvs) => jget akvs "name"
      | _ => a1
    ingredients :=
      match pyOrO (jget kvs "recipeIngredient") (jget kvs "ingredients") with
      | some (.arr xs) =>
        (xs.map (fun i => clean_text (pyStr i))).filter (fun t => !t.data.isEmpty)
      | _ => []
    instructions := instructionsOf (jget kvs "recipeInstructions")
    prepTime := jget kvs "prepTime"
    cookTime := jget kvs "cookTime"
    totalTime := jget kvs "totalTime"
    tags := tagsOf (jget kvs "keywords")
    nutrition :=
      match jget kvs "nutrition" with
      | some (.obj nkvs) => nkvs
      | _ => [] }

/-- One candidate item: build the recipe dict iff its `@type` names
Recipe. -/
def recipeOfItem : Json → Option RecipeDict
  | .obj kvs => if typeIsRecipe (jget kvs "@type") then some (buildRecipe kvs) else none
  | _ => none

/-- Models `extract_jsonld_recipe` (src/app.py lines 273-354): walk the JSON-LD
blocks in document order, skip blocks that failed to decode, and return the
normalization of the first Recipe-typed candidate found. -/
def extract_jsonld_recipe (root : Node) : Option RecipeDict :=
  (ldjsonScripts root).findSome? (fun blk =>
    match blk with
    | none => none
    | some data => (candidatesOf data).findSome? recipeOfItem)

/-! ## Fallback scraping (src/app.py lines 360-414) -/

/-- First element of the document with the given tag (`soup.find(t)`). -/
def findFirstTag (root : Node) (t : String) : Option Loc :=
  (docLocs root).find? (fun l => nodeTag l.node == t)

/-- First `meta` element whose attribute `k` equals `v`
(`soup.find("meta", ...)`). -/
def findMetaBy (root : Node) (k v : String) : Option Loc :=
  (docLocs root).find?
    (fun l => nodeTag l.node == "meta" && attrGet (nodeAttrs l.node) k == some v)

/-- Truthy `content` attribute of a found meta tag. -/
def metaContent (l : Loc) : Option String :=
  match attrGet (nodeAttrs l.node) "content" with
  | some c => if c.data.isEmpty then none else some c
  | none => none

/-- Models `fallback_title` (src/app.py lines 360-367): the first `h1`'s cleaned
text (possibly empty), else the cleaned `og:title` meta content. -/
def fallback_title (root : Node) : Option String :=
  match findFirstTag root "h1" with
  | some h1 => some (clean_text ⟨getTextSp h1.node⟩)
  | none =>
    match findMetaBy root "property" "og:title" with
    | some og => (metaContent og).map clean_text
    | none => none

/-- Models `fallback_description` (src/app.py lines 369-376). -/
def fallback_description (root : Node) : Option String :=
  match findMetaBy root "name" "description" with
  | some m =>
    match metaContent m with
    | some c => some (clean_text c)
    | none =>
      match findMetaBy root "property" "og:description" with
      | some og => (metaContent og).map clean_text
      | none => none
  | none =>
    match findMetaBy root "property" "og:description" with
    | some og => (metaContent og).map clean_text
    | none => none

/-- Models `collect_list_text` (src/app.py lines 378-387): the first selector
group whose matches yield at least one non-empty cleaned text wins; the
collected texts are de-duplicated case-insensitively. -/
def collectAux (root : Node) : List (List Chain) → List String
  | [] => []
  | sel :: rest =>
    let out := ((selectGroup root sel).map
      (fun li => clean_text ⟨getTextSp li.node⟩)).filter (fun t => !t.data.isEmpty)
    if out.isEmpty then collectAux root rest else out

/-- Models `collect_list_text` entry point. -/
def collect_list_text (root : Node) (selectors : List (List Chain)) : List String :=
  dedupe_keep_order (collectAux root selectors)

/-- The selector cascade of `fallback_ingredients`. -/
def ingredientSelectors : List (List Chain) :=
  [ [⟨[selTC "ul" "ingredients-section"], selT "li"⟩,
     ⟨[], selTC "li" "mntl-structured-ingredients__list-item"⟩],
    [⟨[], selA "itemprop" "recipeIngredient"⟩],
    [⟨[selTC "ul" "ingredients"], selT "li"⟩],
    [⟨[selC "ingredients"], selT "li"⟩] ]

/-- Models `fallback_ingredients` (src/app.py lines 389-398). -/
def fallback_ingredients (root : Node) : List String :=
  collect_list_text root ingredientSelectors

/-- The selector cascade of `fallback_instructions`. -/
def instructionSelectors : List (List Chain) :=
  [ [⟨[selTC "ol" "instructions-section"], selT "li"⟩,
     ⟨[], selTC "li" "mntl-sc-block-group--LI"⟩],
    [⟨[selA "itemprop" "recipeInstructions"], selT "li"⟩],
    [⟨[selT "ol"], selTC "li" "instruction"⟩, ⟨[selT "ol"], selT "li"⟩,
     ⟨[selC "instructions"], selT "li"⟩] ]

/-- Models `fallback_instructions` (src/app.py lines 400-408). -/
def fallback_instructions (root : Node) : List String :=
  collect_list_text root instructionSelectors

/-- Models `fallback_author` (src/app.py lines 410-414): `select_one` returns the
first document-order match of the grouped selector. -/
def fallback_author (root : Node) : Option String :=
  match (docLocs root).find?
          (fun l => groupMatch
            [⟨[], selA "itemprop" "author"⟩, ⟨[], selC "byline__name"⟩,
             ⟨[], selC "mntl-attribution__item-name"⟩] l) with
  | some c => some (clean_text ⟨getTextSp c.node⟩)
  | none => none

/-! ## Main extraction (src/app.py lines 420-475) -/

/-- The JSON object `parse_recipe` returns.  `extracted_at` is
`int(time.time())`, supplied as the ambient-clock parameter `now`. -/
structure Record where
  schema_version : String
  source_url : String
  title : Json
  description : Json
  ingredients : List String
  instructions : List String
  times : List (String × String)
  nutrition : List (String × Json)
  tags : List String
  author : Json
  article : List String
  article_sections : List (String × String)
  extracted_at : Nat

/-- Python `A or B or ""` where `A` is a JSON-LD field and `B` an optional
fallback string. -/
def orJsonStr (a : Option Json) (b : Option String) : Json :=
  if optTruthy a then a.getD .null
  else
    match b with
    | some s => if s.data.isEmpty then .str "" else .str s
    | none => .str ""

/-- Models `recipe.get(..)` over the optional JSON-LD result (an absent recipe is
the empty dict `{}`). -/
def rdField (r : Option RecipeDict) (f : RecipeDict → Option Json) : Option Json :=
  match r with
  | some rd => f rd
  | none => none

/-- List field of the optional JSON-LD result (absent gives `None`, which is
falsy like the empty list). -/
def rdList (r : Option RecipeDict) (f : RecipeDict → List String) : List String :=
  match r with
  | some rd => f rd
  | none => []

/-- Argument adaptation of `parse_iso8601_minutes(recipe.get(..))`: the
field is a decoded JSON value but the parser expects an optional string.
Falsy non-strings are rejected by the parser's `if not iso` and missing
fields are `None`; a truthy non-string would raise `AttributeError` at
`iso.strip()` in Python and is modelled as absent (no claim reaches it). -/
def isoArg : Option Json → Option String
  | some (.str s) => some s
  | _ => none

/-- One humanized time entry of the `times` dict (`if x: times[k] = x`). -/
def timeEntry (k : String) (v : Option String) : List (String × String) :=
  match v with
  | some s => if s.data.isEmpty then [] else [(k, s)]
  | none => []

/-- Models `parse_recipe` (src/app.py lines 420-475): prefer the JSON-LD recipe,
fall back per field, re-clean the item lists, humanize the times, attach
article content, and return the assembled record.  The function has a
single unconditional `return result`: every input yields a `Record`. -/
def parse_recipe (url : String) (root : Node) (now : Nat) : Record :=
  let recipe := extract_jsonld_recipe root
  let ingredients0 :=
    let l := rdList recipe (fun rd => rd.ingredients)
    if l.isEmpty then fallback_ingredients root else l
  let instructions0 :=
    let l := rdList recipe (fun rd => rd.instructions)
    if l.isEmpty then fallback_instructions root else l
  { schema_version := "1.2.0"
    source_url := url
    title := orJsonStr (rdField recipe (fun rd => rd.name)) (fallback_title root)
    description := orJsonStr (rdField recipe (fun rd => rd.description))
                     (fallback_description root)
    ingredients := ingredients0.map clean_text
    instructions := instructions0.map clean_text
    times :=
      timeEntry "prepTime"
        (humanize_minutes (parse_iso8601_minutes
          (isoArg (rdField recipe (fun rd => rd.prepTime))))) ++
      timeEntry "cookTime"
        (humanize_minutes (parse_iso8601_minutes
          (isoArg (rdField recipe (fun rd => rd.cookTime))))) ++
      timeEntry "totalTime"
        (humanize_minutes (parse_iso8601_minutes
          (isoArg (rdField recipe (fun rd => rd.totalTime)))))
    nutrition :=
      match recipe with
      | some rd => rd.nutrition
      | none => []
    tags := rdList recipe (fun rd => rd.tags)
    author := orJsonStr (rdField recipe (fun rd => rd.author)) (fallback_author root)
    article := extract_article_paragraphs root
    article_sections := extract_article_sections root
    extracted_at := now }

/-! ## Auxiliary definitions for the verification statements -/

/-- A document whose JSON-LD blocks are exactly the given list (a `html`
element containing one script per block). -/
def mkScriptsDoc (blocks : List (Option Json)) : Node :=
  .elem "html" [] (blocks.map .ldscript)

/-- Stated from the spec, for comparison with the code:
`CompletenessScore` — the count of non-empty name, non-empty ingredient
list, non-empty instruction list of a normalized candidate. -/
def specCompletenessScore (r : RecipeDict) : Nat :=
  (if optTruthy r.name then 1 else 0) +
  (if r.ingredients.isEmpty then 0 else 1) +
  (if r.instructions.isEmpty then 0 else 1)

/-- A schema.org `HowToSection` node: a label and nested steps, no `text`
field. -/
def sectionNode (label : String) (steps : List Json) : Json :=
  .obj [("@type", .str "HowToSection"), ("name", .str label),
        ("itemListElement", .arr steps)]

/-- A one-block document whose recipe instructions consist of a single
`HowToSection` with the given label and nested steps. -/
def sectionRecipeDoc (label : String) (steps : List Json) : Node :=
  mkScriptsDoc [some (.obj
    [("@type", .str "Recipe"), ("name", .str "T"),
     ("recipeInstructions", .arr [sectionNode label steps])])]

/-! ## Concrete documents used in the verification statements -/

/-- A sparse Recipe candidate: a name and nothing else. -/
def c6first : List (String × Json) :=
  [("@type", .str "Recipe"), ("name", .str "First")]

/-- A complete Recipe candidate: name, ingredients and instructions. -/
def c6second : List (String × Json) :=
  [("@type", .str "Recipe"), ("name", .str "Second"),
   ("recipeIngredient", .arr [.str "2 cups flour", .str "1 tsp salt"]),
   ("recipeInstructions",
    .arr [.obj [("@type", .str "HowToStep"), ("text", .str "Mix.")]])]

/-- Two Recipe candidates in one block: the first sparse (name only), the
second complete (name, ingredients, instructions). -/
def c6json : Json :=
  .arr [.obj c6first, .obj c6second]

def c6doc : Node :=
  .elem "html" [] [.elem "head" [] [.ldscript (some c6json)], .elem "body" [] []]

def c7json : Json :=
  .obj [("@type", .str "Recipe"), ("name", .str "Layered Cake"),
        ("recipeInstructions", .arr [
          .obj [("@type", .str "HowToSection"), ("name", .str "Prep"),
                ("itemListElement", .arr [
                  .obj [("@type", .str "HowToStep"), ("text", .str "Sift the flour.")],
                  .obj [("@type", .str "HowToStep"), ("text", .str "Butter the pan.")]])]])]

def c7doc : Node :=
  .elem "html" [] [.elem "head" [] [.ldscript (some c7json)], .elem "body" [] []]

def c8json : Json :=
  .obj [("@type", .str "Recipe"), ("name", .str "Mousse"),
        ("keywords", .arr [.str "Dessert", .str "dessert", .str "Easy"])]

def c8doc : Node :=
  .elem "html" [] [.elem "head" [] [.ldscript (some c8json)], .elem "body" [] []]

def c9doc : Node :=
  .elem "html" [] [.elem "body" [] [.elem "article" [] [
    .elem "h2" [] [.textNode "Topic"],
    .elem "p" [] [.textNode "Here is the very first body paragraph."],
    .elem "p" [] [.textNode "Here is the second body paragraph."]]]]

def c10doc : Node :=
  .elem "html" [] [.elem "body" [] [.elem "article" [] [
    .elem "p" [] [.textNode "A tiny opening line."],
    .elem "p" [] [.textNode "This second paragraph is long enough to collect the extra length point."]]]]

def emptyDoc : Node :=
  .elem "html" [] []


end RecipeApp

-- ============================================================
-- Lemmas about the text sanitizer and duration parser
-- ============================================================
namespace RecipeApp

theorem pySpace_toNat {c : Char} (h : isPySpace c = true) :
    c.toNat = 32 ∨ c.toNat = 9 ∨ c.toNat = 10 ∨ c.toNat = 13 ∨
    c.toNat = 11 ∨ c.toNat = 12 := by
  simp only [isPySpace, Bool.or_eq_true, beq_iff_eq] at h
  rcases h with ((((h | h) | h) | h) | h) | h <;> subst h <;> decide

theorem not_pySpace_of_digit {c : Char} (h : isDigitCh c = true) :
    isPySpace c = false := by
  cases hps : isPySpace c
  · rfl
  · exfalso
    have ht := pySpace_toNat hps
    simp only [isDigitCh, Bool.and_eq_true, decide_eq_true_eq] at h
    omega

theorem not_pySpace_of_glueLeft {c : Char} (h : isGlueLeft c = true) :
    isPySpace c = false := by
  cases hps : isPySpace c
  · rfl
  · exfalso
    have ht := pySpace_toNat hps
    simp only [isGlueLeft, isAlphaCh, Bool.or_eq_true, Bool.and_eq_true,
      decide_eq_true_eq, beq_iff_eq] at h
    rcases h with (⟨h1, h2⟩ | ⟨h1, h2⟩) | h
    · omega
    · omega
    · subst h
      rcases ht with ht | ht | ht | ht | ht | ht <;> revert ht <;> decide

theorem not_glueLeft_of_digit {c : Char} (h : isDigitCh c = true) :
    isGlueLeft c = false := by
  cases hg : isGlueLeft c
  · rfl
  · exfalso
    simp only [isDigitCh, Bool.and_eq_true, decide_eq_true_eq] at h
    simp only [isGlueLeft, isAlphaCh, Bool.or_eq_true, Bool.and_eq_true,
      decide_eq_true_eq, beq_iff_eq] at hg
    rcases hg with (⟨h1, h2⟩ | ⟨h1, h2⟩) | hg
    · omega
    · omega
    · subst hg
      have hv : (')').toNat = 41 := rfl
      omega

theorem gluedSub_head? (l : List Char) : (gluedSub l).head? = l.head? := by
  cases l with
  | nil => rfl
  | cons c1 t =>
    cases t with
    | nil => rfl
    | cons c2 rest =>
      simp only [gluedSub]
      split <;> rfl

theorem gluedSub_ne_nil {l : List Char} (h : l ≠ []) : gluedSub l ≠ [] := by
  cases l with
  | nil => exact absurd rfl h
  | cons c t =>
    intro he
    have := gluedSub_head? (c :: t)
    rw [he] at this
    simp at this

theorem getLast?_cons_of_ne_nil {α : Type} {a : α} {l : List α} (h : l ≠ []) :
    (a :: l).getLast? = l.getLast? := by
  cases l with
  | nil => exact absurd rfl h
  | cons b t => rw [List.getLast?_cons_cons]

theorem gluedSub_getLast? (l : List Char) :
    (gluedSub l).getLast? = l.getLast? := by
  induction l using gluedSub.induct with
  | case1 => rfl
  | case2 c => rfl
  | case3 c1 c2 rest h ih =>
    simp only [gluedSub]
    rw [if_pos h]
    cases rest with
    | nil => rfl
    | cons r rs =>
      simp only [List.getLast?_cons_cons]
      rw [getLast?_cons_of_ne_nil (gluedSub_ne_nil (by simp))]
      exact ih
  | case4 c1 c2 rest h ih =>
    simp only [gluedSub]
    rw [if_neg h]
    rw [getLast?_cons_of_ne_nil (gluedSub_ne_nil (by simp)), ih,
        List.getLast?_cons_cons]

end RecipeApp

namespace RecipeApp

theorem gluedSub_cons_head (c : Char) (l : List Char) :
    ∃ t, gluedSub (c :: l) = c :: t := by
  cases l with
  | nil => exact ⟨[], rfl⟩
  | cons c2 rest =>
    simp only [gluedSub]
    by_cases h : (isGlueLeft c && isDigitCh c2) = true
    · rw [if_pos h]; exact ⟨' ' :: c2 :: gluedSub rest, rfl⟩
    · rw [if_neg h]; exact ⟨gluedSub (c2 :: rest), rfl⟩

theorem gluedSub_idem (l : List Char) : gluedSub (gluedSub l) = gluedSub l := by
  induction l using gluedSub.induct with
  | case1 => rfl
  | case2 c => rfl
  | case3 c1 c2 rest h ih =>
    have hdig : isDigitCh c2 = true := (Bool.and_eq_true _ _ |>.mp h).2
    simp only [gluedSub]
    rw [if_pos h]
    have h1 : (isGlueLeft c1 && isDigitCh ' ') = false := by
      simp [isDigitCh]
    have h2 : (isGlueLeft ' ' && isDigitCh c2) = false := by
      simp [isGlueLeft, isAlphaCh]
    have h3 : isGlueLeft c2 = false := not_glueLeft_of_digit hdig
    show gluedSub (c1 :: ' ' :: c2 :: gluedSub rest) = c1 :: ' ' :: c2 :: gluedSub rest
    rw [show gluedSub (c1 :: ' ' :: c2 :: gluedSub rest)
          = c1 :: gluedSub (' ' :: c2 :: gluedSub rest) by
        simp only [gluedSub]; rw [if_neg (by simp [h1])]]
    rw [show gluedSub (' ' :: c2 :: gluedSub rest)
          = ' ' :: gluedSub (c2 :: gluedSub rest) by
        simp only [gluedSub]; rw [if_neg (by simp [h2])]]
    cases hr : gluedSub rest with
    | nil => rfl
    | cons g gs =>
      rw [show gluedSub (c2 :: g :: gs) = c2 :: gluedSub (g :: gs) by
        simp only [gluedSub]; rw [if_neg (by simp [h3])]]
      rw [← hr, ih]
  | case4 c1 c2 rest h ih =>
    simp only [gluedSub]
    rw [if_neg h]
    obtain ⟨t, ht⟩ := gluedSub_cons_head c2 rest
    rw [ht]
    rw [show gluedSub (c1 :: c2 :: t) = c1 :: gluedSub (c2 :: t) by
      simp only [gluedSub]; rw [if_neg h]]
    rw [← ht, ih]

theorem noGluedPair_tail {c : Char} {l : List Char}
    (h : noGluedPair (c :: l) = true) : noGluedPair l = true := by
  simp only [noGluedPair, Bool.and_eq_true] at h
  exact h.2

theorem noGluedPair_head {c d : Char} {l : List Char}
    (h : noGluedPair (c :: d :: l) = true) :
    (isGlueLeft c && isDigitCh d) = false := by
  simp only [noGluedPair, Bool.and_eq_true, Bool.not_eq_true'] at h
  exact h.1

theorem gluedSub_of_noGluedPair {l : List Char} (h : noGluedPair l = true) :
    gluedSub l = l := by
  induction l using gluedSub.induct with
  | case1 => rfl
  | case2 c => rfl
  | case3 c1 c2 rest hc ih =>
    exfalso
    rw [noGluedPair_head h] at hc
    exact Bool.false_ne_true hc
  | case4 c1 c2 rest hc ih =>
    simp only [gluedSub]
    rw [if_neg hc, ih (noGluedPair_tail h)]

end RecipeApp

namespace RecipeApp

theorem noGluedPair_cons {c : Char} {l : List Char}
    (hp : match l.head? with
          | some d => (isGlueLeft c && isDigitCh d) = false
          | none => True)
    (hl : noGluedPair l = true) : noGluedPair (c :: l) = true := by
  cases l with
  | nil => rfl
  | cons d t =>
    simp only [List.head?] at hp
    simp only [noGluedPair, Bool.and_eq_true, Bool.not_eq_true']
    refine ⟨hp, ?_⟩
    simpa [noGluedPair] using hl

theorem noGluedPair_gluedSub (l : List Char) :
    noGluedPair (gluedSub l) = true := by
  induction l using gluedSub.induct with
  | case1 => rfl
  | case2 c => rfl
  | case3 c1 c2 rest h ih =>
    have hdig : isDigitCh c2 = true := (Bool.and_eq_true _ _ |>.mp h).2
    simp only [gluedSub]
    rw [if_pos h]
    refine noGluedPair_cons ?_ (noGluedPair_cons ?_ (noGluedPair_cons ?_ ih))
    · simp [isDigitCh]
    · simp [isGlueLeft, isAlphaCh]
    · cases hg : (gluedSub rest).head? with
      | none => trivial
      | some d => simp [not_glueLeft_of_digit hdig]
  | case4 c1 c2 rest h ih =>
    simp only [gluedSub]
    rw [if_neg h]
    refine noGluedPair_cons ?_ ih
    rw [gluedSub_head? (c2 :: rest)]
    simpa using h

end RecipeApp

namespace RecipeApp

theorem innerWS_tail {c : Char} {l : List Char}
    (h : innerWS (c :: l) = true) : innerWS l = true := by
  simp only [innerWS, Bool.and_eq_true] at h
  exact h.2

theorem innerWS_pairOK {c : Char} {l : List Char}
    (h : innerWS (c :: l) = true) : pairOK c l = true := by
  simp only [innerWS, Bool.and_eq_true] at h
  exact h.1

theorem pairOK_of_not_space {c : Char} (l : List Char)
    (h : isPySpace c = false) : pairOK c l = true := by
  simp [pairOK, h]

theorem pairOK_head_congr {c : Char} {l1 l2 : List Char}
    (h : l1.head? = l2.head?) : pairOK c l1 = pairOK c l2 := by
  cases l1 with
  | nil =>
    cases l2 with
    | nil => rfl
    | cons d t => simp at h
  | cons d t =>
    cases l2 with
    | nil => simp at h
    | cons d2 t2 =>
      simp only [List.head?_cons, Option.some.injEq] at h
      subst h
      rfl

theorem innerWS_cons_of {c : Char} {l : List Char}
    (hp : pairOK c l = true) (hl : innerWS l = true) :
    innerWS (c :: l) = true := by
  simp [innerWS, hp, hl]

theorem innerWS_dropWhile {l : List Char} (p : Char → Bool)
    (h : innerWS l = true) : innerWS (l.dropWhile p) = true := by
  induction l with
  | nil => rfl
  | cons c t ih =>
    rw [List.dropWhile_cons]
    by_cases hc : p c = true
    · rw [if_pos hc]
      exact ih (innerWS_tail h)
    · rw [if_neg hc]
      exact h

theorem innerWS_append_left (a b : List Char)
    (h : innerWS (a ++ b) = true) : innerWS a = true := by
  induction a with
  | nil => rfl
  | cons c t ih =>
    rw [List.cons_append] at h
    refine innerWS_cons_of ?_ (ih (innerWS_tail h))
    have hp := innerWS_pairOK h
    cases t with
    | nil =>
      simp only [pairOK, List.nil_append] at hp ⊢
      cases hs : isPySpace c with
      | false => simp
      | true =>
        rw [hs] at hp
        simp only [Bool.not_true, Bool.false_or, Bool.and_eq_true] at hp
        simp [hp.1]
    | cons d u =>
      simpa only [pairOK, List.cons_append] using hp

theorem consSpace_head (r : List Char) : (consSpace r).head? = some ' ' := by
  unfold consSpace
  split
  · rfl
  · rfl

theorem collapseWS_head_space {l : List Char} {c : Char}
    (h : (collapseWS l).head? = some c) (hsp : isPySpace c = true) :
    c = ' ' := by
  cases l with
  | nil => simp [collapseWS] at h
  | cons c2 cs =>
    simp only [collapseWS] at h
    by_cases hc : isPySpace c2 = true
    · rw [if_pos hc, consSpace_head] at h
      exact (Option.some_inj.mp h).symm
    · rw [if_neg hc] at h
      simp only [List.head?_cons, Option.some.injEq] at h
      subst h
      exact absurd hsp hc

theorem innerWS_consSpace {r : List Char} (hr : innerWS r = true)
    (hh : ∀ d, r.head? = some d → isPySpace d = true → d = ' ') :
    innerWS (consSpace r) = true := by
  unfold consSpace
  split
  · exact hr
  · rename_i hne
    refine innerWS_cons_of ?_ hr
    cases r with
    | nil => rfl
    | cons d t =>
      have hd : isPySpace d = false := by
        cases hds : isPySpace d with
        | false => rfl
        | true =>
          exact absurd (hh d rfl hds) (by
            intro he
            exact hne t (by rw [he]))
      simp [pairOK, hd]

theorem innerWS_collapseWS (l : List Char) :
    innerWS (collapseWS l) = true := by
  induction l with
  | nil => rfl
  | cons c cs ih =>
    simp only [collapseWS]
    by_cases hc : isPySpace c = true
    · rw [if_pos hc]
      exact innerWS_consSpace ih (fun d hd => collapseWS_head_space hd)
    · rw [if_neg hc]
      refine innerWS_cons_of ?_ ih
      refine pairOK_of_not_space _ ?_
      exact Bool.not_eq_true _ ▸ hc

end RecipeApp

namespace RecipeApp

theorem headNoWS_dropWhile (l : List Char) :
    headNoWS (l.dropWhile isPySpace) = true := by
  induction l with
  | nil => rfl
  | cons c t ih =>
    rw [List.dropWhile_cons]
    by_cases hc : isPySpace c = true
    · rw [if_pos hc]; exact ih
    · rw [if_neg hc]
      simpa [headNoWS] using hc

theorem lastNoWS_tail {c : Char} {l : List Char}
    (h : lastNoWS (c :: l) = true) : lastNoWS l = true := by
  cases l with
  | nil => rfl
  | cons d t =>
    rw [lastNoWS] at h ⊢
    rw [List.getLast?_cons_cons] at h
    exact h

theorem lastNoWS_dropWhile {l : List Char} (p : Char → Bool)
    (h : lastNoWS l = true) : lastNoWS (l.dropWhile p) = true := by
  induction l with
  | nil => exact h
  | cons c t ih =>
    rw [List.dropWhile_cons]
    by_cases hc : p c = true
    · rw [if_pos hc]
      exact ih (lastNoWS_tail h)
    · rw [if_neg hc]
      exact h

theorem dropWhile_eq_self_of_headNoWS {l : List Char}
    (h : headNoWS l = true) : l.dropWhile isPySpace = l := by
  cases l with
  | nil => rfl
  | cons c t =>
    rw [List.dropWhile_cons, if_neg]
    simp only [headNoWS, Bool.not_eq_true'] at h
    simp [h]

theorem pstrip_of_norm {l : List Char} (h1 : headNoWS l = true)
    (h2 : lastNoWS l = true) : pstrip l = l := by
  unfold pstrip
  rw [dropWhile_eq_self_of_headNoWS h1]
  have hrev : headNoWS l.reverse = true := by
    cases hr : l.reverse with
    | nil => rfl
    | cons c t =>
      have : l.getLast? = some c := by
        rw [← List.head?_reverse, hr, List.head?_cons]
      rw [lastNoWS, this] at h2
      simpa [headNoWS] using h2
  rw [dropWhile_eq_self_of_headNoWS hrev, List.reverse_reverse]

theorem headNoWS_pstrip (l : List Char) : headNoWS (pstrip l) = true := by
  have hA : headNoWS (l.dropWhile isPySpace) = true := headNoWS_dropWhile l
  unfold pstrip
  cases hB : ((l.dropWhile isPySpace).reverse.dropWhile isPySpace).reverse with
  | nil => rfl
  | cons c t =>
    have hdecomp :
        ((l.dropWhile isPySpace).reverse.dropWhile isPySpace).reverse ++
          ((l.dropWhile isPySpace).reverse.takeWhile isPySpace).reverse =
          l.dropWhile isPySpace := by
      rw [← List.reverse_append, List.takeWhile_append_dropWhile,
          List.reverse_reverse]
    rw [hB] at hdecomp
    rw [← hdecomp] at hA
    simpa [headNoWS] using hA

theorem lastNoWS_pstrip (l : List Char) : lastNoWS (pstrip l) = true := by
  unfold pstrip
  rw [lastNoWS, List.getLast?_reverse]
  have hh := headNoWS_dropWhile ((l.dropWhile isPySpace).reverse)
  cases hB : (l.dropWhile isPySpace).reverse.dropWhile isPySpace with
  | nil => rfl
  | cons c t =>
    rw [hB] at hh
    simpa [headNoWS] using hh

theorem innerWS_pstrip {l : List Char} (h : innerWS l = true) :
    innerWS (pstrip l) = true := by
  have hA : innerWS (l.dropWhile isPySpace) = true := innerWS_dropWhile _ h
  unfold pstrip
  refine innerWS_append_left _
    (((l.dropWhile isPySpace).reverse.takeWhile isPySpace).reverse) ?_
  have hdecomp :
      ((l.dropWhile isPySpace).reverse.dropWhile isPySpace).reverse ++
        ((l.dropWhile isPySpace).reverse.takeWhile isPySpace).reverse =
        l.dropWhile isPySpace := by
    rw [← List.reverse_append, List.takeWhile_append_dropWhile,
        List.reverse_reverse]
  rw [hdecomp]
  exact hA

theorem wsNormal_collapseStrip (l : List Char) :
    wsNormal (collapseStrip l) = true := by
  unfold wsNormal collapseStrip
  rw [headNoWS_pstrip, lastNoWS_pstrip, innerWS_pstrip (innerWS_collapseWS l)]
  rfl

end RecipeApp

namespace RecipeApp

theorem consSpace_eq_cons {r : List Char}
    (h : r.head? = some ' ' → False) : consSpace r = ' ' :: r := by
  unfold consSpace
  split
  · exact absurd rfl h
  · rfl

theorem collapseWS_of_innerWS {l : List Char} (h : innerWS l = true) :
    collapseWS l = l := by
  induction l with
  | nil => rfl
  | cons c cs ih =>
    simp only [collapseWS]
    have hcs := ih (innerWS_tail h)
    by_cases hc : isPySpace c = true
    · rw [if_pos hc, hcs]
      have hp := innerWS_pairOK h
      simp only [pairOK, hc, Bool.not_true, Bool.false_or, Bool.and_eq_true,
        beq_iff_eq] at hp
      obtain ⟨hceq, hhead⟩ := hp
      subst hceq
      cases cs with
      | nil => rfl
      | cons d t =>
        have hd : isPySpace d = false := by simpa using hhead
        rw [consSpace_eq_cons]
        intro hh
        simp only [List.head?_cons, Option.some.injEq] at hh
        subst hh
        rw [show isPySpace ' ' = true from by decide] at hd
        exact Bool.false_ne_true hd.symm
    · rw [if_neg hc, hcs]

theorem collapseStrip_of_wsNormal {l : List Char} (h : wsNormal l = true) :
    collapseStrip l = l := by
  simp only [wsNormal, Bool.and_eq_true] at h
  obtain ⟨⟨h1, h2⟩, h3⟩ := h
  unfold collapseStrip
  rw [collapseWS_of_innerWS h3, pstrip_of_norm h1 h2]

theorem wsNormal_parts {l : List Char} (h1 : headNoWS l = true)
    (h2 : lastNoWS l = true) (h3 : innerWS l = true) : wsNormal l = true := by
  unfold wsNormal
  rw [h1, h2, h3]
  rfl

theorem wsNormal_dest {l : List Char} (h : wsNormal l = true) :
    headNoWS l = true ∧ lastNoWS l = true ∧ innerWS l = true := by
  simp only [wsNormal, Bool.and_eq_true] at h
  exact ⟨h.1.1, h.1.2, h.2⟩

theorem wsNormal_stripBullet {l : List Char} (h : wsNormal l = true) :
    wsNormal (stripBullet l) = true := by
  obtain ⟨h1, h2, h3⟩ := wsNormal_dest h
  cases l with
  | nil => rfl
  | cons c cs =>
    simp only [stripBullet]
    by_cases hb : isBulletChar c = true
    · rw [if_pos hb]
      exact wsNormal_parts (headNoWS_dropWhile cs)
        (lastNoWS_dropWhile _ (lastNoWS_tail h2))
        (innerWS_dropWhile _ (innerWS_tail h3))
    · rw [if_neg hb]
      exact wsNormal_parts h1 h2 h3

theorem innerWS_gluedSub {l : List Char} (h : innerWS l = true) :
    innerWS (gluedSub l) = true := by
  induction l using gluedSub.induct with
  | case1 => rfl
  | case2 c => exact h
  | case3 c1 c2 rest hc ih =>
    have hglue : isGlueLeft c1 = true := (Bool.and_eq_true _ _ |>.mp hc).1
    have hdig : isDigitCh c2 = true := (Bool.and_eq_true _ _ |>.mp hc).2
    simp only [gluedSub]
    rw [if_pos hc]
    refine innerWS_cons_of
      (pairOK_of_not_space _ (not_pySpace_of_glueLeft hglue)) ?_
    refine innerWS_cons_of ?_ ?_
    · simp [pairOK, not_pySpace_of_digit hdig]
    · refine innerWS_cons_of
        (pairOK_of_not_space _ (not_pySpace_of_digit hdig)) ?_
      exact ih (innerWS_tail (innerWS_tail h))
  | case4 c1 c2 rest hc ih =>
    simp only [gluedSub]
    rw [if_neg hc]
    refine innerWS_cons_of ?_ (ih (innerWS_tail h))
    rw [pairOK_head_congr (gluedSub_head? (c2 :: rest))]
    exact innerWS_pairOK h

theorem headNoWS_gluedSub {l : List Char} (h : headNoWS l = true) :
    headNoWS (gluedSub l) = true := by
  cases l with
  | nil => rfl
  | cons c t =>
    obtain ⟨u, hu⟩ := gluedSub_cons_head c t
    rw [hu]
    exact h

theorem lastNoWS_gluedSub {l : List Char} (h : lastNoWS l = true) :
    lastNoWS (gluedSub l) = true := by
  unfold lastNoWS
  rw [gluedSub_getLast?]
  exact h

theorem wsNormal_gluedSub {l : List Char} (h : wsNormal l = true) :
    wsNormal (gluedSub l) = true := by
  obtain ⟨h1, h2, h3⟩ := wsNormal_dest h
  exact wsNormal_parts (headNoWS_gluedSub h1) (lastNoWS_gluedSub h2)
    (innerWS_gluedSub h3)

theorem wsNormal_clean_text_l (l : List Char) :
    wsNormal (clean_text_l l) = true := by
  unfold clean_text_l
  exact wsNormal_gluedSub (wsNormal_stripBullet (wsNormal_collapseStrip l))

theorem stripBullet_of_no_bullet {l : List Char}
    (h : match l with | [] => True | c :: _ => isBulletChar c = false) :
    stripBullet l = l := by
  cases l with
  | nil => rfl
  | cons c t =>
    simp only [stripBullet]
    rw [if_neg]
    simp [h]

theorem clean_text_l_idem_of {l : List Char}
    (h : match clean_text_l l with
         | [] => True
         | c :: _ => isBulletChar c = false) :
    clean_text_l (clean_text_l l) = clean_text_l l := by
  have hn := wsNormal_clean_text_l l
  conv_lhs => rw [clean_text_l]
  rw [collapseStrip_of_wsNormal hn, stripBullet_of_no_bullet h]
  unfold clean_text_l
  exact gluedSub_idem _

end RecipeApp

namespace RecipeApp

theorem parse_iso8601_minutes_pos {s : String} {n : Nat}
    (h : parse_iso8601_minutes (some s) = some n) : 0 < n := by
  simp only [parse_iso8601_minutes] at h
  by_cases he : s.data.isEmpty = true
  · rw [if_pos he] at h
    exact absurd h (by simp)
  · rw [if_neg he] at h
    cases hm : isoMatch (pstrip s.data) with
    | none => rw [hm] at h; exact absurd h (by simp)
    | some q =>
      obtain ⟨d, hq, mi, sec⟩ := q
      rw [hm] at h
      simp only at h
      by_cases hz : (if d * 24 * 60 + hq * 60 + mi == 0 && sec != 0 then 1
                     else d * 24 * 60 + hq * 60 + mi) == 0
      · rw [if_pos hz] at h
        exact absurd h (by simp)
      · rw [if_neg hz] at h
        have hn : (if d * 24 * 60 + hq * 60 + mi == 0 && sec != 0 then 1
                   else d * 24 * 60 + hq * 60 + mi) = n := by
          simpa using h
        rw [hn] at hz
        simp only [beq_iff_eq] at hz
        omega

theorem ldjsonScripts_mkScriptsDoc (blocks : List (Option Json)) :
    ldjsonScripts (mkScriptsDoc blocks) = blocks := by
  unfold mkScriptsDoc ldjsonScripts
  induction blocks with
  | nil => rfl
  | cons b rest ih =>
    simp only [List.map_cons, ldjsonScriptsL, ldjsonScripts, List.cons_append,
      List.nil_append]
    unfold ldjsonScripts at ih
    rw [ih]

theorem isoMatch_none_parse {s : String}
    (h : isoMatch (pstrip s.data) = none) :
    parse_iso8601_minutes (some s) = none := by
  simp only [parse_iso8601_minutes]
  by_cases he : s.data.isEmpty = true
  · rw [if_pos he]
  · rw [if_neg he, h]

end RecipeApp

-- ============================================================
-- Claim theorems
-- ============================================================
namespace RecipeApp

/-- C1 (counterexample): on a document where the structured-data pass finds
nothing and every DOM fallback comes up empty, `parse_recipe` still returns
a normal record — with empty title, ingredients and instructions — rather
than any `ExtractionFailure` value (no such value or branch exists in the
code). -/
theorem C1_counterexample :
    (parse_recipe "http://x" emptyDoc 0).title = Json.str "" ∧
    (parse_recipe "http://x" emptyDoc 0).ingredients = [] ∧
    (parse_recipe "http://x" emptyDoc 0).instructions = [] ∧
    (parse_recipe "http://x" emptyDoc 0).schema_version = "1.2.0" :=
  ⟨rfl, rfl, rfl, rfl⟩

/-- C1 (amended): `parse_recipe` has a single unconditional return and never
produces an `ExtractionFailure`; whenever the JSON-LD pass and the
title/ingredient/instruction fallbacks all come up empty, it returns the
normal record whose three mandatory fields are empty. -/
theorem C1_parse_recipe_total_record (url : String) (root : Node) (now : Nat)
    (hE : extract_jsonld_recipe root = none)
    (hT : fallback_title root = none)
    (hI : fallback_ingredients root = [])
    (hS : fallback_instructions root = []) :
    (parse_recipe url root now).title = Json.str "" ∧
    (parse_recipe url root now).ingredients = [] ∧
    (parse_recipe url root now).instructions = [] := by
  unfold parse_recipe
  rw [hE]
  simp [rdField, rdList, orJsonStr, optTruthy, hT, hI, hS]

/-- C1 (witness): the amended statement applied to the empty document. -/
theorem C1_witness :
    extract_jsonld_recipe emptyDoc = none ∧
    (parse_recipe "u" emptyDoc 0).title = Json.str "" ∧
    (parse_recipe "u" emptyDoc 0).ingredients = [] ∧
    (parse_recipe "u" emptyDoc 0).instructions = [] := by
  have h := C1_parse_recipe_total_record "u" emptyDoc 0 rfl rfl rfl rfl
  exact ⟨rfl, h.1, h.2.1, h.2.2⟩

/-- C2 (counterexample): a sub-minute duration is not floored to zero and
treated as absent — `parse_iso8601_minutes("PT30S")` returns 1 minute, not
`None`. -/
theorem C2_counterexample : parse_iso8601_minutes (some "PT30S") = some 1 := by
  decide

/-- C2 (amended): the parser returns `None` when the string does not match
the grammar; a positive duration below one minute is rounded up to one
minute (so the result, when present, is always positive); a zero duration
with no seconds yields `None`; `None` input yields `None`. -/
theorem C2_duration_rounding :
    (∀ s : String, isoMatch (pstrip s.data) = none →
       parse_iso8601_minutes (some s) = none) ∧
    (∀ (s : String) (n : Nat),
       parse_iso8601_minutes (some s) = some n → 0 < n) ∧
    parse_iso8601_minutes (some "PT30S") = some 1 ∧
    parse_iso8601_minutes (some "PT0M") = none ∧
    parse_iso8601_minutes none = none :=
  ⟨fun _ h => isoMatch_none_parse h, fun _ _ h => parse_iso8601_minutes_pos h,
   by decide, by decide, rfl⟩

/-- C2 (witness): the amended statement applied at concrete inputs. -/
theorem C2_witness :
    parse_iso8601_minutes (some "garbage") = none ∧ (0 : Nat) < 1 :=
  ⟨C2_duration_rounding.1 "garbage" (by decide),
   C2_duration_rounding.2.1 "PT30S" 1 (by decide)⟩

/-- C3 (counterexample): the regex supports only day/hour/minute/second
designators — `parse_minutes("P1W")` is `None`, not 10080. -/
theorem C3_counterexample : parse_iso8601_minutes (some "P1W") = none := by
  decide

/-- C3 (amended): the duration parser accepts the restricted form
`P(nD)?(T(nH)?(nM)?(nS)?)?` (case-insensitive) with 1 day = 1440 min and
1 hour = 60 min; year, month and week designators do not match and yield
`None`; the documented examples hold and any parsed result is positive
(the function is pure, hence deterministic). -/
theorem C3_duration_table :
    parse_iso8601_minutes (some "PT1H30M") = some 90 ∧
    parse_iso8601_minutes (some "PT45M") = some 45 ∧
    parse_iso8601_minutes (some "P1DT30M") = some 1470 ∧
    parse_iso8601_minutes (some "garbage") = none ∧
    parse_iso8601_minutes (some "P1W") = none ∧
    parse_iso8601_minutes (some "P1Y") = none ∧
    parse_iso8601_minutes (some "P2M") = none ∧
    (∀ (s : String) (n : Nat),
       parse_iso8601_minutes (some s) = some n → 0 < n) :=
  ⟨by decide, by decide, by decide, by decide, by decide, by decide,
   by decide, fun _ _ h => parse_iso8601_minutes_pos h⟩

/-- C3 (witness): the positivity conjunct applied at a concrete input. -/
theorem C3_witness :
    parse_iso8601_minutes (some "PT45M") = some 45 ∧ (0 : Nat) < 45 :=
  ⟨by decide, C3_duration_table.2.2.2.2.2.2.2 "PT45M" 45 (by decide)⟩

/-- C4 (counterexample): `clean_text` is not idempotent — the bullet
stripper removes only one leading bullet per pass, so `"--x"` cleans to
`"-x"` and cleans again to `"x"`. -/
theorem C4_counterexample :
    clean_text "--x" = "-x" ∧ clean_text (clean_text "--x") = "x" ∧
    clean_text (clean_text "--x") ≠ clean_text "--x" :=
  ⟨by decide, by decide, by decide⟩

/-- C4 (amended): `clean_text` is idempotent on exactly the strings whose
cleaned form does not begin with a bullet character: a second pass
collapses no whitespace (the output is whitespace-normal), strips no bullet
(by the hypothesis), and re-splits nothing (the glue substitution is
idempotent). -/
theorem C4_clean_text_conditional_idem (s : String)
    (h : noLeadingBullet (clean_text s) = true) :
    clean_text (clean_text s) = clean_text s := by
  have hl : clean_text_l (clean_text_l s.data) = clean_text_l s.data := by
    apply clean_text_l_idem_of
    unfold noLeadingBullet at h
    cases hc : clean_text_l s.data with
    | nil => trivial
    | cons c t =>
      have hdata : (clean_text s).data = c :: t := hc
      rw [hdata] at h
      simpa using h
  exact congrArg String.mk hl

/-- C4 (witness): the amended statement applied at a concrete input. -/
theorem C4_witness :
    noLeadingBullet (clean_text " 1 cup  flour2 sugar ") = true ∧
    clean_text (clean_text " 1 cup  flour2 sugar ") =
      clean_text " 1 cup  flour2 sugar " :=
  ⟨by decide, C4_clean_text_conditional_idem " 1 cup  flour2 sugar " (by decide)⟩

/-- C5 (counterexample): the glue repair handles only letter-then-digit
boundaries; a digit-then-letter gluing such as `"2cups"` is left unsplit. -/
theorem C5_counterexample :
    clean_text "2cups" = "2cups" ∧ clean_text "2cups" ≠ "2 cups" :=
  ⟨by decide, by decide⟩

/-- C5 (amended): `clean_text` inserts a single space at every boundary
where a letter (or `)`) is immediately followed by a digit — no such
boundary survives in any output — and the documented example splits as
specified; digit-then-letter boundaries are not touched (`"2cups"` stays
glued). -/
theorem C5_glue_repair :
    (∀ s : String, noGluedPair (clean_text s).data = true) ∧
    clean_text "Cabernet Sauvignon3 ribs celery2 medium parsnips" =
      "Cabernet Sauvignon 3 ribs celery 2 medium parsnips" ∧
    clean_text "2cups" = "2cups" :=
  ⟨fun s => noGluedPair_gluedSub (stripBullet (collapseStrip s.data)),
   by decide, by decide⟩

/-- C6 (counterexample): with two Recipe-typed candidates in one block —
the first sparse (spec completeness score 1), the second complete (score
3) — the extractor returns the first candidate, not the highest-scoring
one. -/
theorem C6_counterexample :
    extract_jsonld_recipe c6doc = some (buildRecipe c6first) ∧
    specCompletenessScore (buildRecipe c6first) = 1 ∧
    specCompletenessScore (buildRecipe c6second) = 3 :=
  ⟨rfl, by decide, by decide⟩

/-- C6 (amended): `extract_jsonld_recipe` performs no completeness scoring:
the first Recipe-typed candidate in document order is returned, whatever
candidates or blocks follow. -/
theorem C6_first_match_wins (kvs : List (String × Json)) (rest : List Json)
    (more : List (Option Json))
    (h : typeIsRecipe (jget kvs "@type") = true) :
    extract_jsonld_recipe
        (mkScriptsDoc (some (.arr (.obj kvs :: rest)) :: more)) =
      some (buildRecipe kvs) := by
  unfold extract_jsonld_recipe
  rw [ldjsonScripts_mkScriptsDoc, List.findSome?_cons]
  simp only [candidatesOf]
  rw [List.filter_cons_of_pos (by rfl), List.findSome?_cons]
  simp [recipeOfItem, h]

/-- C6 (witness): the amended statement applied to the sparse candidate. -/
theorem C6_witness :
    extract_jsonld_recipe (mkScriptsDoc [some (.arr [.obj c6first])]) =
      some (buildRecipe c6first) :=
  C6_first_match_wins c6first [] [] (by decide)

end RecipeApp

namespace RecipeApp

/-- C7 (counterexample): a `HowToSection` instruction object has no `text`
field, so the extractor drops the whole section — the nested
`itemListElement` steps do not appear in the output instructions, which
come back empty instead of flattened. -/
theorem C7_counterexample :
    (extract_jsonld_recipe c7doc).map (fun r => r.instructions) = some [] :=
  rfl

/-- C7 (amended): an instruction dict contributes only its truthy `text`
field; a section object (no `text`) is discarded wholesale — its label is
not retained, but neither are its nested steps, whatever the label and
steps are — while a plain `HowToStep` with a `text` field is kept. -/
theorem C7_section_dropped :
    (∀ (label : String) (steps : List Json),
       (extract_jsonld_recipe (sectionRecipeDoc label steps)).map
         (fun r => r.instructions) = some []) ∧
    (extract_jsonld_recipe (mkScriptsDoc [some (.obj
        [("@type", Json.str "Recipe"),
         ("recipeInstructions", Json.arr [Json.obj
           [("@type", Json.str "HowToStep"),
            ("text", Json.str "Mix.")]])])])).map
      (fun r => r.instructions) = some ["Mix."] :=
  ⟨fun _ _ => rfl, rfl⟩

/-- C8 (counterexample): keywords are not de-duplicated — the tag list
`["Dessert", "dessert", "Easy"]` normalizes to itself, not to
`["Dessert", "Easy"]`. -/
theorem C8_counterexample :
    (extract_jsonld_recipe c8doc).map (fun r => r.tags) =
      some ["Dessert", "dessert", "Easy"] ∧
    (["Dessert", "dessert", "Easy"] : List String) ≠ ["Dessert", "Easy"] :=
  ⟨rfl, by decide⟩

/-- C8 (amended): the keywords normalization cleans list entries and keeps
them all, case-insensitive duplicates included; the case-insensitive
first-occurrence dedup helper exists in the code (`dedupe_keep_order`,
which would produce the spec value) but is applied only to DOM-fallback
item lists, never to tags. -/
theorem C8_tags_not_deduped :
    (extract_jsonld_recipe c8doc).map (fun r => r.tags) =
      some ["Dessert", "dessert", "Easy"] ∧
    dedupe_keep_order ["Dessert", "dessert", "Easy"] = ["Dessert", "Easy"] :=
  ⟨rfl, by decide⟩

/-- C9 (counterexample): two kept paragraphs under one heading produce two
separate `(heading, paragraph)` entries with the same heading — adjacent
same-heading output is not merged into one section with a paragraph
list. -/
theorem C9_counterexample :
    extract_article_sections c9doc =
      [("Topic", "Here is the very first body paragraph."),
       ("Topic", "Here is the second body paragraph.")] := by
  decide

/-- C9 (amended): `extract_article_sections` emits one
`(heading, paragraph)` pair per kept candidate paragraph — repeated
headings are repeated, not merged — and a paragraph whose trimmed text is
empty is dropped, so every emitted entry has a non-empty paragraph. -/
theorem C9_per_paragraph_sections :
    (∀ (root : Node) (pr : String × String),
       pr ∈ extract_article_sections root → pr.2 ≠ "") ∧
    extract_article_sections c9doc =
      [("Topic", "Here is the very first body paragraph."),
       ("Topic", "Here is the second body paragraph.")] := by
  constructor
  · intro root pr h
    unfold extract_article_sections at h
    have h2 := List.mem_of_mem_take h
    rw [List.mem_filterMap] at h2
    obtain ⟨p, _, hf⟩ := h2
    by_cases ht : (final_trim_l (getTextSp p.node)).isEmpty = true
    · rw [if_pos ht] at hf
      exact absurd hf (by simp)
    · rw [if_neg ht] at hf
      have hpr := Option.some_inj.mp hf
      intro hemp
      rw [← hpr] at hemp
      have hnil : final_trim_l (getTextSp p.node) = [] :=
        congrArg String.data hemp
      rw [hnil] at ht
      exact ht rfl
  · decide

/-- C9 (witness): the invariant applied to a concrete emitted entry. -/
theorem C9_witness :
    (("Topic", "Here is the very first body paragraph.") : String × String).2
      ≠ "" :=
  C9_per_paragraph_sections.1 c9doc
    ("Topic", "Here is the very first body paragraph.") (by decide)

/-- C10: both article outputs are truncated to at most 200 entries, and the
flat paragraph list is reordered by the preference score
(sentence-terminal punctuation worth 2, length at least 60 worth 1) rather
than emitted in document order: in the sample document the long scoring
paragraph precedes the short one that comes first in the markup. -/
theorem C10_caps_and_reorder :
    (∀ root : Node, (extract_article_paragraphs root).length ≤ 200) ∧
    (∀ root : Node, (extract_article_sections root).length ≤ 200) ∧
    extract_article_paragraphs c10doc =
      ["This second paragraph is long enough to collect the extra length point.",
       "A tiny opening line."] := by
  refine ⟨fun root => ?_, fun root => ?_, by decide⟩
  · unfold extract_article_paragraphs
    simp only [List.length_map]
    exact List.length_take_le _ _
  · unfold extract_article_sections
    exact List.length_take_le _ _

end RecipeApp
